import Mathlib

/-!
# Verification of the video compositing / export pipeline

Shallow embedding, over exact rationals, of the frame-geometry arithmetic,
progress reporting, busy-flag discipline, encoder-adapter command graph and
fallback selection implemented in `src/video-processor-ffmpeg-umd.js` and the
unnamed source parts (the `VideoEditor` React component, the
`VideoFrameProcessor` library, and the ESM `FFmpegVideoProcessor`).

JavaScript numbers are idealised as `ℚ`: every quantity involved (canvas
sizes, aspect ratios, progress fractions, millisecond timeouts) is an exact
rational in the source, so no rounding behaviour is lost that any claim
depends on.
-/

/-! ## 1. Compositor geometry

The destination rectangle passed to `ctx.drawImage(video, offsetX, offsetY,
drawWidth, drawHeight)` by each compositor, for a fixed 1080×1920 target.
-/

/-- A draw rectangle: position `(x, y)` and size `w × h` on the target canvas. -/
structure Rect where
  x : ℚ
  y : ℚ
  w : ℚ
  h : ℚ
deriving DecidableEq, Repr

/-- JavaScript `a || b` on numbers, as used for the `videoWidth || 1280`
defaults: yields `b` when `a` is `0` (falsy), else `a`. -/
def jsOrDefault (a b : ℚ) : ℚ := if a = 0 then b else a

/-- The crop-to-fill transform exactly as the specification (§4.1, claim C1)
states it: the wider-than-target branch scales so that drawn height is 1920,
the other branch so that drawn width is 1080, each centred on the other axis.
Constants `W = 1080`, `H = 1920` are inlined. -/
def specFillGeometry (sourceWidth sourceHeight : ℚ) : Rect :=
  if sourceWidth / sourceHeight > 1080 / 1920 then
    { x := (1080 - 1920 * (sourceWidth / sourceHeight)) / 2, y := 0,
      w := 1920 * (sourceWidth / sourceHeight), h := 1920 }
  else
    { x := 0, y := (1920 - 1080 / (sourceWidth / sourceHeight)) / 2,
      w := 1080, h := 1080 / (sourceWidth / sourceHeight) }

/-- Geometry computed by `FallbackVideoProcessor.processVideo`'s `processFrames`
loop (src/video-processor-ffmpeg-umd.js lines 572–592), including the
`videoWidth || 1280` / `videoHeight || 720` defaults.  The `let` constants
`targetAspect = 1080 / 1920` etc. of the source are inlined. -/
def processFramesRect (rawWidth rawHeight : ℚ) : Rect :=
  if (jsOrDefault rawWidth 1280) / (jsOrDefault rawHeight 720) > 1080 / 1920 then
    { x := (1080 - 1920 * ((jsOrDefault rawWidth 1280) / (jsOrDefault rawHeight 720))) / 2,
      y := 0,
      w := 1920 * ((jsOrDefault rawWidth 1280) / (jsOrDefault rawHeight 720)), h := 1920 }
  else
    { x := 0,
      y := (1920 - 1080 / ((jsOrDefault rawWidth 1280) / (jsOrDefault rawHeight 720))) / 2,
      w := 1080, h := 1080 / ((jsOrDefault rawWidth 1280) / (jsOrDefault rawHeight 720)) }

/-- Geometry computed by `VideoFrameProcessor.processFrame`
(src/unnamed/part_002 lines 44–66): identical fill formula, no defaults. -/
def processFrameRect (videoWidth videoHeight : ℚ) : Rect :=
  if videoWidth / videoHeight > 1080 / 1920 then
    { x := (1080 - 1920 * (videoWidth / videoHeight)) / 2, y := 0,
      w := 1920 * (videoWidth / videoHeight), h := 1920 }
  else
    { x := 0, y := (1920 - 1080 / (videoWidth / videoHeight)) / 2,
      w := 1080, h := 1080 / (videoWidth / videoHeight) }

/-- Geometry computed by `VideoEditor.drawFrame` (src/unnamed/part_001 lines
117–133).  Note the branch bodies relative to `specFillGeometry`: the
wider-than-target branch sets `drawWidth = 1080`, `drawHeight = 1080 /
videoAspect` (a fit, not a fill). -/
def drawFrameRect (videoWidth videoHeight : ℚ) : Rect :=
  if videoWidth / videoHeight > 1080 / 1920 then
    { x := 0, y := (1920 - 1080 / (videoWidth / videoHeight)) / 2,
      w := 1080, h := 1080 / (videoWidth / videoHeight) }
  else
    { x := (1080 - 1920 * (videoWidth / videoHeight)) / 2, y := 0,
      w := 1920 * (videoWidth / videoHeight), h := 1920 }

/-- The rectangle fully covers the 1080×1920 target: no target pixel lies
outside it. -/
def coversTarget (r : Rect) : Prop :=
  r.x ≤ 0 ∧ r.y ≤ 0 ∧ 1080 ≤ r.x + r.w ∧ 1920 ≤ r.y + r.h

instance (r : Rect) : Decidable (coversTarget r) := by
  unfold coversTarget; infer_instance

/-- The rectangle lies entirely inside the 1080×1920 target (letterboxing:
background can remain visible around it). -/
def insideTarget (r : Rect) : Prop :=
  0 ≤ r.x ∧ 0 ≤ r.y ∧ r.x + r.w ≤ 1080 ∧ r.y + r.h ≤ 1920

instance (r : Rect) : Decidable (insideTarget r) := by
  unfold insideTarget; infer_instance

/-! ## 2. External encoder adapter: command graph and its geometry

The adapter hands ffmpeg a fixed argument list.  We embed the argument lists
verbatim, and model the geometric meaning of the two scale filters that occur
in them, idealised over `ℚ` (ffmpeg's even-pixel rounding is immaterial to the
equivalence claim): `scale=1080:1920:force_original_aspect_ratio=increase`
scales by the factor that makes both dimensions at least the target
(`max (1080 / w) (1920 / h)`), `decrease` by the factor that makes both at
most the target, and a centred `crop`/`pad` to 1080×1920 places the scaled
content at the centred offsets. -/

/-- Scaled dimensions under `scale=1080:1920:force_original_aspect_ratio=increase`. -/
def scaleAspectIncrease (w h : ℚ) : ℚ × ℚ :=
  (w * max (1080 / w) (1920 / h), h * max (1080 / w) (1920 / h))

/-- Scaled dimensions under `scale=1080:1920:force_original_aspect_ratio=decrease`. -/
def scaleAspectDecrease (w h : ℚ) : ℚ × ℚ :=
  (w * min (1080 / w) (1920 / h), h * min (1080 / w) (1920 / h))

/-- Placement of scaled content of size `p` on the 1080×1920 target after a
centred `crop=1080:1920` (content larger than target) or a centred
`pad=1080:1920:(ow-iw)/2:(oh-ih)/2` (content smaller than target): in both
cases the content rectangle sits at the centred offsets. -/
def centeredRect (p : ℚ × ℚ) : Rect :=
  { x := (1080 - p.1) / 2, y := (1920 - p.2) / 2, w := p.1, h := p.2 }

/-- Source-content rectangle produced by the UMD adapter's filter graph
(`FFmpegVideoProcessor._buildFFmpegCommand`, scale-increase then centred crop). -/
def umdAdapterRect (w h : ℚ) : Rect := centeredRect (scaleAspectIncrease w h)

/-- Source-content rectangle produced by the `VideoEditor` component's inline
ffmpeg command (src/unnamed/part_001 lines 296–310, scale-decrease then centred
white pad). -/
def editorAdapterRect (w h : ℚ) : Rect := centeredRect (scaleAspectDecrease w h)

/-- The `-filter_complex` string built by
`FFmpegVideoProcessor._buildFFmpegCommand` (src/video-processor-ffmpeg-umd.js
lines 318–323), four chain segments joined by commas; the constants
`targetWidth = 1080`, `targetHeight = 1920` are inlined. -/
def umdFilterComplex : String :=
  String.intercalate ","
    ["[0:v]scale=1080:1920:force_original_aspect_ratio=increase",
     "crop=1080:1920[scaled]",
     "[1:v]scale=1080:1920[frame]",
     "[scaled][frame]overlay=0:0:format=auto[final]"]

/-- Argument list built by `FFmpegVideoProcessor._buildFFmpegCommand`
(src/video-processor-ffmpeg-umd.js lines 308–368). -/
def buildFFmpegCommand (hasFrameImage : Bool) (inputVideo frameImage outputVideo format : String) :
    List String :=
  (["-i", inputVideo]
    ++ (if hasFrameImage then
          ["-i", frameImage,
           "-filter_complex", umdFilterComplex,
           "-map", "[final]",
           "-map", "0:a?"]
        else
          ["-vf", "scale=1080:1920:force_original_aspect_ratio=increase,crop=1080:1920"])
    ++ (if format = "mp4" then
          ["-c:v", "libx264", "-preset", "fast", "-crf", "20",
           "-maxrate", "8M", "-bufsize", "16M",
           "-c:a", "aac", "-b:a", "256k", "-movflags", "+faststart", "-threads", "0"]
        else
          ["-c:v", "libvpx-vp9", "-crf", "32", "-b:v", "0",
           "-cpu-used", "4", "-row-mt", "1",
           "-c:a", "libopus", "-b:a", "256k", "-threads", "0"])
    ++ ["-avoid_negative_ts", "make_zero", "-fflags", "+genpts",
        "-f", if format = "mp4" then "mp4" else "webm",
        "-y", outputVideo])

/-- The `-filter_complex` string of `VideoEditor.processVideoWithFFmpeg`
(src/unnamed/part_001 line 300): scale-decrease, centred white pad, overlay. -/
def editorFilterComplex : String :=
  "[0:v]scale=1080:1920:force_original_aspect_ratio=decrease,pad=1080:1920:(ow-iw)/2:(oh-ih)/2:white[scaled];[scaled][1:v]overlay=0:0[output]"

/-- The full `ffmpegCommand` array of `VideoEditor.processVideoWithFFmpeg`
(src/unnamed/part_001 lines 296–310). -/
def editorFfmpegCommand : List String :=
  ["-i", "input.mp4",
   "-i", "frame.png",
   "-filter_complex", editorFilterComplex,
   "-map", "[output]",
   "-map", "0:a?",
   "-c:v", "libx264",
   "-preset", "medium",
   "-crf", "18",
   "-c:a", "aac",
   "-b:a", "128k",
   "-movflags", "+faststart",
   "output.mp4"]

/-- Character-list prefix match used by `strIncludes`. -/
def charsMatch : List Char → List Char → Bool
  | [], _ => true
  | _ :: _, [] => false
  | p :: ps, c :: cs => (p == c) && charsMatch ps cs

/-- JavaScript `String.prototype.includes`: `pat` occurs contiguously in `s`. -/
def strIncludes (s pat : String) : Bool :=
  (List.range (s.length + 1)).any (fun i => charsMatch pat.data (s.data.drop i))

/-! ## 3. Compositor draw sequences (claim C7)

The per-frame canvas operations, in source order, of each compositor. -/

/-- One canvas drawing operation. -/
inductive DrawOp where
  | fillRect (color : String) (x y w h : ℚ)
  | drawSource (r : Rect)
  | drawOverlay (x y w h : ℚ)
deriving DecidableEq, Repr

/-- Draw operations of one `processFrames` iteration of
`FallbackVideoProcessor.processVideo` (src/video-processor-ffmpeg-umd.js lines
566–604): black background, source frame, then the overlay only when
`this.frameImage` is set. -/
def processFramesOps (hasOverlay : Bool) (rawWidth rawHeight : ℚ) : List DrawOp :=
  [DrawOp.fillRect "#000000" 0 0 1080 1920,
   DrawOp.drawSource (processFramesRect rawWidth rawHeight)]
  ++ (if hasOverlay then [DrawOp.drawOverlay 0 0 1080 1920] else [])

/-- Draw operations of `VideoFrameProcessor.processFrame` (src/unnamed/part_002
lines 68–78). -/
def processFrameOps (hasOverlay : Bool) (videoWidth videoHeight : ℚ) : List DrawOp :=
  [DrawOp.fillRect "#000000" 0 0 1080 1920,
   DrawOp.drawSource (processFrameRect videoWidth videoHeight)]
  ++ (if hasOverlay then [DrawOp.drawOverlay 0 0 1080 1920] else [])

/-- Draw operations of `VideoEditor.drawFrame` (src/unnamed/part_001 lines
103–140): the guard `if (!video || !canvas || !frameImg) return` bails out
before any drawing when the overlay image is not loaded. -/
def drawFrameOps (videoPresent canvasPresent overlayLoaded : Bool)
    (videoWidth videoHeight : ℚ) : List DrawOp :=
  if videoPresent = false ∨ canvasPresent = false ∨ overlayLoaded = false then []
  else
    [DrawOp.fillRect "#ffffff" 0 0 1080 1920,
     DrawOp.drawSource (drawFrameRect videoWidth videoHeight),
     DrawOp.drawOverlay 0 0 1080 1920]

/-! ## 4. Fallback capture pipeline: progress events (claims C3, C9)

Event-loop model of the progress reports of
`FallbackVideoProcessor.processVideo` (src/video-processor-ffmpeg-umd.js lines
519–647).  The browser delivers two kinds of callbacks relevant to progress: a
`requestAnimationFrame` run of `processFrames` (carrying the video's
`currentTime` and `ended` flag at that instant), and the `'ended'` DOM event
handler registered at line 635.  `processFrames` stops re-scheduling itself
once its end branch runs, modelled by `loopActive`. -/

/-- One event delivered by the event loop to the fallback job. -/
inductive FbEvent where
  | tick (t : ℚ) (ended : Bool)
  | endedEv
deriving DecidableEq, Repr

/-- Mutable state of the `processFrames` loop: the `frameCount` counter and
whether the loop is still re-scheduling itself. -/
structure FbState where
  frameCount : ℕ
  loopActive : Bool
deriving DecidableEq, Repr

/-- Effect of one event: next state and the list of values passed to
`onProgress` by its handler, straight from the source.  A tick first checks
`processingVideo.ended || processingVideo.currentTime >= duration` and on that
branch reports `1.0` and stops; otherwise it reports
`Math.min(currentTime / duration, 0.99)` on every 10th frame.  The `'ended'`
handler reports `1.0` unconditionally. -/
def fbStep (d : ℚ) (s : FbState) (e : FbEvent) : FbState × List ℚ :=
  match e with
  | FbEvent.endedEv => (s, [1])
  | FbEvent.tick t ended =>
    if s.loopActive = false then (s, [])
    else if ended = true ∨ d ≤ t then ({ s with loopActive := false }, [1])
    else if s.frameCount % 10 = 0 then
      ({ s with frameCount := s.frameCount + 1 }, [min (t / d) (99 / 100)])
    else ({ s with frameCount := s.frameCount + 1 }, [])

/-- Run the job over a whole event schedule, accumulating progress reports. -/
def fbExec (d : ℚ) : FbState → List FbEvent → FbState × List ℚ
  | s, [] => (s, [])
  | s, e :: es =>
    ((fbExec d (fbStep d s e).1 es).1,
     (fbStep d s e).2 ++ (fbExec d (fbStep d s e).1 es).2)

/-- Complete progress trace of one fallback job: the initial `onProgress(0)`
issued when playback starts (line 625), then the reports of the schedule. -/
def fbTrace (d : ℚ) (es : List FbEvent) : List ℚ :=
  0 :: (fbExec d { frameCount := 0, loopActive := true } es).2

/-- The `currentTime` samples of the animation ticks, in schedule order. -/
def tickTimes : List FbEvent → List ℚ
  | [] => []
  | FbEvent.tick t _ :: es => t :: tickTimes es
  | FbEvent.endedEv :: es => tickTimes es

/-- Every animation tick in the schedule sees `ended = true`. -/
def allTicksEnded : List FbEvent → Bool
  | [] => true
  | FbEvent.tick _ e :: es => e && allTicksEnded es
  | FbEvent.endedEv :: es => allTicksEnded es

/-- Schedule validity: once the `'ended'` event has fired, every later
animation tick sees `ended = true` (the media element never un-ends). -/
def endedConsistent : List FbEvent → Bool
  | [] => true
  | FbEvent.endedEv :: es => allTicksEnded es
  | FbEvent.tick _ _ :: es => endedConsistent es

/-- A natural-end schedule for a 1-second video: an animation tick observes
`currentTime = duration` (so the loop's end branch runs), and the `'ended'`
DOM event then fires as playback finishes. -/
def fbNaturalEndSchedule : List FbEvent :=
  [FbEvent.tick 1 false, FbEvent.endedEv]

/-- A stalled-playback schedule for a 1-second video: fifty animation ticks
with `currentTime` stuck at 0.5 s and the video never ending — arbitrarily
much wall-clock time may elapse across them. -/
def fbStalledSchedule : List FbEvent :=
  List.replicate 50 (FbEvent.tick (1 / 2) false)

/-! ## 5. FFmpeg processor: busy flag, finally-cleanup, memoized init
(claims C4, C8, C10) -/

/-- Fields of `FFmpegVideoProcessor` relevant to job admission
(src/video-processor-ffmpeg-umd.js lines 10–18); the progress callback is
identified by an opaque number. -/
structure FfmpegState where
  isLoaded : Bool
  isProcessing : Bool
  currentProgressCallback : Option ℕ
deriving DecidableEq, Repr

/-- `FFmpegVideoProcessor.processVideo` (src/video-processor-ffmpeg-umd.js
lines 106–170) as a state transformer.  `s` is the state after the initial
`await this.initialize()` (whose returned boolean equals `s.isLoaded`);
`body` is the outcome of the try block (extract, write, exec, read), and the
third component lists the values this call itself passes to `onProgress`
(the final `onProgress(1.0)` on success, nothing on failure).  The `finally`
block resets both fields on every exit from the try block. -/
def ffmpegProcessVideo (s : FfmpegState) (cb : Option ℕ) (body : Except String Unit) :
    FfmpegState × Except String Unit × List ℚ :=
  if s.isLoaded = false then
    (s, Except.error "FFmpeg initialization failed", [])
  else if s.isProcessing = true then
    (s, Except.error "Another video is currently being processed", [])
  else
    let s1 : FfmpegState := { s with isProcessing := true, currentProgressCallback := cb }
    ({ s1 with isProcessing := false, currentProgressCallback := none },
     body,
     match body with
     | Except.ok _ => [1]
     | Except.error _ => [])

/-- Entry check of `FallbackVideoProcessor.processVideo`
(src/video-processor-ffmpeg-umd.js lines 421–426). -/
def fallbackBusyEntry (isProcessing : Bool) : Except String Unit :=
  if isProcessing = true then Except.error "Another video is being processed"
  else Except.ok ()

/-- Loader fields of `FFmpegVideoProcessor`: whether the module finished
loading, and the in-flight `loadingPromise` (identified by an opaque number,
`none` when no load was ever started). -/
structure LoaderState where
  isLoaded : Bool
  loadingPromise : Option ℕ
deriving DecidableEq, Repr

/-- What `initialize` does before returning. -/
inductive InitAction where
  | returnTrue
  | awaitPromise (id : ℕ)
deriving DecidableEq, Repr

/-- `FFmpegVideoProcessor.initialize` (src/video-processor-ffmpeg-umd.js lines
24–34 and src/unnamed/part_003 lines 36–46): return `true` when loaded,
otherwise await the existing `loadingPromise`, otherwise start `_loadFFmpeg()`
— `fresh` names the promise such a new invocation would create, so the state
records a new load exactly when one is triggered.  The body up to the
assignment runs synchronously on the event loop, so no interleaving can
observe `loadingPromise` half-set. -/
def loaderInit (s : LoaderState) (fresh : ℕ) : LoaderState × InitAction :=
  if s.isLoaded = true then (s, InitAction.returnTrue)
  else
    match s.loadingPromise with
    | some p => (s, InitAction.awaitPromise p)
    | none => ({ s with loadingPromise := some fresh }, InitAction.awaitPromise fresh)

/-! ## 6. Fallback selector and output typing (claim C5) -/

/-- An output blob: the byte payload is irrelevant to the claims, only the
MIME type string is kept. -/
structure Blob where
  type : String
deriving DecidableEq, Repr

/-- Codec selection of `FallbackVideoProcessor.processVideo`
(src/video-processor-ffmpeg-umd.js lines 487–502): the first supported of
VP9, VP8, H264 — all in the WebM container — else plain `video/webm`; the
produced blob is typed with exactly this string (line 529). -/
def fallbackMimeSelect (vp9 vp8 h264 : Bool) : String :=
  if vp9 = true then "video/webm;codecs=vp9,opus"
  else if vp8 = true then "video/webm;codecs=vp8,opus"
  else if h264 = true then "video/webm;codecs=h264,opus"
  else "video/webm"

/-- `VideoProcessor.processVideo` (src/video-processor-ffmpeg-umd.js lines
683–716).  `run1`/`run2` are the outcomes of the two potential
`ffmpegProcessor.processVideo` attempts (the MP4-priority attempt and the
general attempt); both `catch` blocks only log and fall through.  The result
pairs the delivered blob with whether the informational format-mismatch note
(`console.warn` at lines 711–713) was issued. -/
def vpProcessVideo (useFFmpeg ffmpegReady : Bool)
    (run1 run2 fallbackRun : Except String Blob) (outputFormat : String) :
    Except String (Blob × Bool) :=
  match (if outputFormat = "mp4" ∧ useFFmpeg = true ∧ ffmpegReady = true
         then some run1 else none) with
  | some (Except.ok b) => Except.ok (b, false)
  | _ =>
    match (if useFFmpeg = true ∧ ffmpegReady = true then some run2 else none) with
    | some (Except.ok b) => Except.ok (b, false)
    | _ =>
      match fallbackRun with
      | Except.error e => Except.error e
      | Except.ok b =>
        Except.ok (b, if outputFormat = "mp4" ∧ strIncludes b.type "mp4" = false
                      then true else false)

/-! ## 7. VideoFrameProcessor timeout guard (claim C9) -/

/-- `maxProcessingTime` of `VideoFrameProcessor.processVideo`
(src/unnamed/part_002 line 235): milliseconds before the guard fires. -/
def maxProcessingTime (duration : ℚ) : ℚ := (duration + 10) * 1000

/-- Callbacks relevant to job finalisation in
`VideoFrameProcessor.processVideo` (src/unnamed/part_002 lines 201–311). -/
inductive VfpEvent where
  | timeoutFire
  | recorderOnStop
  | recorderOnError
deriving DecidableEq, Repr

/-- Terminal status of the job's promise. -/
inductive VfpOutcome where
  | pending
  | resolvedBlob
  | rejected
deriving DecidableEq, Repr

/-- Job state: the processor's `isProcessing` flag, whether the
`MediaRecorder` is still recording, and the promise status. -/
structure VfpState where
  isProcessing : Bool
  recorderActive : Bool
  outcome : VfpOutcome
deriving DecidableEq, Repr

/-- Handler semantics from the source: the timeout callback (lines 236–243)
cancels the animation frame, clears `isProcessing` and stops the recorder;
`onstop` (lines 209–219) builds the blob from the chunks captured so far and
resolves; `onerror` (lines 306–311) rejects. -/
def vfpStep (s : VfpState) (e : VfpEvent) : VfpState :=
  match e with
  | VfpEvent.timeoutFire => { s with isProcessing := false, recorderActive := false }
  | VfpEvent.recorderOnStop =>
    if s.outcome = VfpOutcome.pending then
      { s with isProcessing := false, outcome := VfpOutcome.resolvedBlob }
    else s
  | VfpEvent.recorderOnError =>
    { s with isProcessing := false, outcome := VfpOutcome.rejected }

/-! ## 8. Geometry lemmas -/

/-- With nonzero intrinsic dimensions, the `|| 1280` / `|| 720` defaults are
inert and the `processFrames` geometry is exactly the specified fill formula. -/
lemma processFramesRect_eq_spec (w h : ℚ) (hw : w ≠ 0) (hh : h ≠ 0) :
    processFramesRect w h = specFillGeometry w h := by
  unfold processFramesRect specFillGeometry jsOrDefault
  rw [if_neg hw, if_neg hh]

/-- The `VideoFrameProcessor.processFrame` geometry is the specified fill
formula, definitionally. -/
lemma processFrameRect_eq_spec (w h : ℚ) :
    processFrameRect w h = specFillGeometry w h := rfl

/-- The specified fill rectangle covers the whole 1080×1920 target. -/
lemma specFill_covers (w h : ℚ) (hw : 0 < w) (hh : 0 < h) :
    coversTarget (specFillGeometry w h) := by
  have ha : 0 < w / h := div_pos hw hh
  unfold specFillGeometry coversTarget
  split_ifs with hc
  · refine ⟨by linarith, le_refl 0, by linarith, by linarith⟩
  · push_neg at hc
    have h19 : 1920 ≤ 1080 / (w / h) := by
      rw [le_div_iff₀ ha]; linarith
    exact ⟨le_refl 0, by linarith, by linarith, by linarith⟩

/-- The specified fill rectangle preserves the source aspect ratio. -/
lemma specFill_aspect (w h : ℚ) (hw : 0 < w) (hh : 0 < h) :
    (specFillGeometry w h).w / (specFillGeometry w h).h = w / h := by
  have ha : w / h ≠ 0 := ne_of_gt (div_pos hw hh)
  unfold specFillGeometry
  split_ifs with hc
  · show 1920 * (w / h) / 1920 = w / h
    rw [mul_div_cancel_left₀ _ (by norm_num : (1920 : ℚ) ≠ 0)]
  · show 1080 / (1080 / (w / h)) = w / h
    rw [div_div_eq_mul_div, mul_comm, mul_div_assoc,
      div_self (by norm_num : (1080 : ℚ) ≠ 0), mul_one]

/-- The `VideoEditor.drawFrame` rectangle also preserves the aspect ratio. -/
lemma drawFrame_aspect (w h : ℚ) (hw : 0 < w) (hh : 0 < h) :
    (drawFrameRect w h).w / (drawFrameRect w h).h = w / h := by
  have ha : w / h ≠ 0 := ne_of_gt (div_pos hw hh)
  unfold drawFrameRect
  split_ifs with hc
  · show 1080 / (1080 / (w / h)) = w / h
    rw [div_div_eq_mul_div, mul_comm, mul_div_assoc,
      div_self (by norm_num : (1080 : ℚ) ≠ 0), mul_one]
  · show 1920 * (w / h) / 1920 = w / h
    rw [mul_div_cancel_left₀ _ (by norm_num : (1920 : ℚ) ≠ 0)]

/-- The `VideoEditor.drawFrame` rectangle sits inside the target: it
letterboxes rather than covers. -/
lemma drawFrame_inside (w h : ℚ) (hw : 0 < w) (hh : 0 < h) :
    insideTarget (drawFrameRect w h) := by
  have ha : 0 < w / h := div_pos hw hh
  unfold drawFrameRect insideTarget
  split_ifs with hc
  · have h19 : 1080 / (w / h) ≤ 1920 := by
      rw [div_le_iff₀ ha]; nlinarith
    exact ⟨le_refl 0, by linarith, by linarith, by linarith⟩
  · push_neg at hc
    refine ⟨by linarith, le_refl 0, by linarith, by linarith⟩

/-! ## 9. Claims C1, C2, C7: compositor geometry and degraded mode -/

/-- Claim C1, counterexample.  The claim asserts that every cited compositor
computes the crop-to-fill transform; for a square (1000×1000) source the
specified transform has drawn height 1920, but `VideoEditor.drawFrame`
produces drawn height 1080 (it fits instead of fills), so the claim as stated
is false. -/
theorem C1_drawFrame_counterexample :
    (drawFrameRect 1000 1000).h = 1080 ∧ (specFillGeometry 1000 1000).h = 1920 ∧
    drawFrameRect 1000 1000 ≠ specFillGeometry 1000 1000 := by
  refine ⟨by norm_num [drawFrameRect], by norm_num [specFillGeometry], ?_⟩
  intro hEq
  have := congrArg Rect.h hEq
  norm_num [drawFrameRect, specFillGeometry] at this

/-- Claim C1 (amended).  For every source frame with positive intrinsic width
and height, the capture-pipeline compositors — `FallbackVideoProcessor`'s
`processFrames` and `VideoFrameProcessor.processFrame` — compute the
crop-to-fill transform exactly as specified; `VideoEditor.drawFrame` does not:
whenever the source aspect differs from the target aspect its result differs
from the specified fill transform (it letterboxes). -/
theorem C1_compositor_fill (w h : ℚ) (hw : 0 < w) (hh : 0 < h) :
    processFramesRect w h = specFillGeometry w h ∧
    processFrameRect w h = specFillGeometry w h ∧
    (w / h ≠ 1080 / 1920 → drawFrameRect w h ≠ specFillGeometry w h) := by
  refine ⟨processFramesRect_eq_spec w h hw.ne' hh.ne', processFrameRect_eq_spec w h, ?_⟩
  intro hne hEq
  have ha : 0 < w / h := div_pos hw hh
  by_cases hc : w / h > 1080 / 1920
  · have hfield : (drawFrameRect w h).h = (specFillGeometry w h).h := congrArg Rect.h hEq
    rw [drawFrameRect, specFillGeometry, if_pos hc, if_pos hc] at hfield
    have h1 : (1080 : ℚ) = 1920 * (w / h) := by
      have := (div_eq_iff ha.ne').mp hfield
      linarith
    exact hne (by linarith)
  · have hfield : (drawFrameRect w h).w = (specFillGeometry w h).w := congrArg Rect.w hEq
    rw [drawFrameRect, specFillGeometry, if_neg hc, if_neg hc] at hfield
    exact hne (by rw [eq_div_iff (by norm_num : (1920 : ℚ) ≠ 0)]; linarith)

/-- Witness for C1 at a 16:9 landscape source (1920×1080). -/
theorem C1_compositor_fill_witness :
    processFramesRect 1920 1080 = specFillGeometry 1920 1080 ∧
    processFrameRect 1920 1080 = specFillGeometry 1920 1080 ∧
    ((1920 : ℚ) / 1080 ≠ 1080 / 1920 →
      drawFrameRect 1920 1080 ≠ specFillGeometry 1920 1080) :=
  C1_compositor_fill 1920 1080 (by norm_num) (by norm_num)

/-- Claim C2, counterexample.  The claim asserts that the drawn rectangle of
every cited compositor covers the 1080×1920 target; for a square source,
`VideoEditor.drawFrame` leaves 420-pixel bands uncovered above and below
(its rectangle starts at y = 420), refuting the claim as stated. -/
theorem C2_cover_counterexample :
    ¬ coversTarget (drawFrameRect 1000 1000) ∧ (drawFrameRect 1000 1000).y = 420 := by
  constructor
  · intro hcov
    have hy := hcov.2.1
    norm_num [drawFrameRect] at hy
  · norm_num [drawFrameRect]

/-- Claim C2 (amended).  For every positive source size, the
capture-pipeline compositors' rectangles fully cover the 1080×1920 target and
preserve the source aspect ratio; `VideoEditor.drawFrame`'s rectangle also
preserves the aspect ratio but lies inside the target (letterboxing) rather
than covering it. -/
theorem C2_cover_aspect (w h : ℚ) (hw : 0 < w) (hh : 0 < h) :
    coversTarget (processFramesRect w h) ∧
    coversTarget (processFrameRect w h) ∧
    (processFramesRect w h).w / (processFramesRect w h).h = w / h ∧
    (processFrameRect w h).w / (processFrameRect w h).h = w / h ∧
    (drawFrameRect w h).w / (drawFrameRect w h).h = w / h ∧
    insideTarget (drawFrameRect w h) := by
  rw [processFramesRect_eq_spec w h hw.ne' hh.ne', processFrameRect_eq_spec w h]
  exact ⟨specFill_covers w h hw hh, specFill_covers w h hw hh,
    specFill_aspect w h hw hh, specFill_aspect w h hw hh,
    drawFrame_aspect w h hw hh, drawFrame_inside w h hw hh⟩

/-- Witness for C2 at a 16:9 landscape source (1280×720). -/
theorem C2_cover_aspect_witness :
    coversTarget (processFramesRect 1280 720) ∧
    coversTarget (processFrameRect 1280 720) ∧
    (processFramesRect 1280 720).w / (processFramesRect 1280 720).h = 1280 / 720 ∧
    (processFrameRect 1280 720).w / (processFrameRect 1280 720).h = 1280 / 720 ∧
    (drawFrameRect 1280 720).w / (drawFrameRect 1280 720).h = 1280 / 720 ∧
    insideTarget (drawFrameRect 1280 720) :=
  C2_cover_aspect 1280 720 (by norm_num) (by norm_num)

/-- Claim C7, counterexample.  The claim asserts that when the overlay asset
failed to load, only the overlay draw step is skipped and background plus
source are still drawn; `VideoEditor.drawFrame` instead returns before any
drawing, producing no operation at all. -/
theorem C7_drawFrame_counterexample :
    drawFrameOps true true false 1000 1000 = [] ∧
    DrawOp.fillRect "#ffffff" 0 0 1080 1920 ∉ drawFrameOps true true false 1000 1000 := by
  constructor
  · rfl
  · intro hmem
    simp [drawFrameOps] at hmem

/-- Claim C7 (amended).  In the capture-pipeline compositors
(`FallbackVideoProcessor.processFrames`, `VideoFrameProcessor.processFrame`) a
missing overlay skips only the overlay step: the background fill and the
source frame are still drawn and the step renders a non-empty sequence.  In
`VideoEditor.drawFrame` a missing overlay aborts the whole draw: nothing is
rendered. -/
theorem C7_overlay_skip (w h : ℚ) :
    processFramesOps false w h =
      [DrawOp.fillRect "#000000" 0 0 1080 1920,
       DrawOp.drawSource (processFramesRect w h)] ∧
    processFrameOps false w h =
      [DrawOp.fillRect "#000000" 0 0 1080 1920,
       DrawOp.drawSource (processFrameRect w h)] ∧
    (∀ x y ow oh, DrawOp.drawOverlay x y ow oh ∉ processFramesOps false w h) ∧
    (∀ x y ow oh, DrawOp.drawOverlay x y ow oh ∉ processFrameOps false w h) ∧
    processFramesOps false w h ≠ [] ∧
    processFrameOps false w h ≠ [] ∧
    drawFrameOps true true false w h = [] := by
  refine ⟨rfl, rfl, ?_, ?_, by simp [processFramesOps], by simp [processFrameOps], rfl⟩
  · intro x y ow oh hmem
    simp [processFramesOps] at hmem
  · intro x y ow oh hmem
    simp [processFrameOps] at hmem

/-! ## 10. Claim C6: encoder command graph vs compositor geometry -/

/-- Scale-increase followed by a centred crop yields exactly the specified
crop-to-fill rectangle. -/
lemma umdAdapterRect_eq_spec (w h : ℚ) (hw : 0 < w) (hh : 0 < h) :
    umdAdapterRect w h = specFillGeometry w h := by
  have hw' : w ≠ 0 := hw.ne'
  have hh' : h ≠ 0 := hh.ne'
  unfold umdAdapterRect centeredRect scaleAspectIncrease specFillGeometry
  by_cases hc : w / h > 1080 / 1920
  · have hcross : (1080 : ℚ) * h < w * 1920 :=
      (div_lt_div_iff₀ (by norm_num) hh).mp hc
    have hmax : max ((1080 : ℚ) / w) (1920 / h) = 1920 / h := by
      apply max_eq_right
      rw [div_le_div_iff₀ hw hh]
      linarith
    rw [hmax, if_pos hc, Rect.mk.injEq]
    refine ⟨?_, ?_, ?_, ?_⟩ <;> field_simp <;> ring
  · have hcross : w * 1920 ≤ 1080 * h := by
      push_neg at hc
      exact (div_le_div_iff₀ hh (by norm_num)).mp hc
    have hmax : max ((1080 : ℚ) / w) (1920 / h) = 1080 / w := by
      apply max_eq_left
      rw [div_le_div_iff₀ hh hw]
      linarith
    rw [hmax, if_neg hc, Rect.mk.injEq]
    refine ⟨?_, ?_, ?_, ?_⟩ <;> field_simp <;> ring

/-- Claim C6, counterexample.  The claim covers the `VideoEditor` command
graph as well, but that graph scale-decreases and pads: for a square source
its content rectangle is 1080×1080 centred at y = 420 — it letterboxes, does
not cover the target, and differs from the §4.1 fill geometry. -/
theorem C6_editor_pad_counterexample :
    ¬ coversTarget (editorAdapterRect 1000 1000) ∧
    editorAdapterRect 1000 1000 ≠ umdAdapterRect 1000 1000 ∧
    (editorAdapterRect 1000 1000).h = 1080 := by
  refine ⟨?_, ?_, ?_⟩
  · intro hcov
    have hy := hcov.2.1
    norm_num [editorAdapterRect, centeredRect, scaleAspectDecrease] at hy
  · intro hEq
    have := congrArg Rect.h hEq
    norm_num [editorAdapterRect, umdAdapterRect, centeredRect,
      scaleAspectDecrease, scaleAspectIncrease] at this
  · norm_num [editorAdapterRect, centeredRect, scaleAspectDecrease]

set_option maxRecDepth 8192 in
/-- Claim C6 (amended).  The UMD External Encoder Adapter's command graph is
equivalent to the §4.1 compositor geometry: its scale-then-crop filter places
the source exactly on the specified crop-to-fill rectangle (never padding);
its filter graph scales the overlay input to the full 1080×1920 canvas and
overlays it at position (0,0), and it maps the original audio track when
present (`-map 0:a?`).  The `VideoEditor`'s inline command instead
scale-decreases and white-pads (see the counterexample). -/
theorem C6_adapter_graph (w h : ℚ) (format : String) (hw : 0 < w) (hh : 0 < h) :
    umdAdapterRect w h = specFillGeometry w h ∧
    strIncludes umdFilterComplex "[1:v]scale=1080:1920[frame]" = true ∧
    strIncludes umdFilterComplex "overlay=0:0" = true ∧
    "0:a?" ∈ buildFFmpegCommand true "input.mp4" "frame.png" "output.mp4" format ∧
    strIncludes editorFilterComplex "pad=1080:1920" = true := by
  refine ⟨umdAdapterRect_eq_spec w h hw hh, by decide, by decide, ?_, by decide⟩
  by_cases hf : format = "mp4" <;> simp [buildFFmpegCommand, hf]

/-- Witness for C6 at a square source and the mp4 format. -/
theorem C6_adapter_graph_witness :
    umdAdapterRect 1000 1000 = specFillGeometry 1000 1000 ∧
    strIncludes umdFilterComplex "[1:v]scale=1080:1920[frame]" = true ∧
    strIncludes umdFilterComplex "overlay=0:0" = true ∧
    "0:a?" ∈ buildFFmpegCommand true "input.mp4" "frame.png" "output.mp4" "mp4" ∧
    strIncludes editorFilterComplex "pad=1080:1920" = true :=
  C6_adapter_graph 1000 1000 "mp4" (by norm_num) (by norm_num)

/-! ## 11. Claim C5: fallback output typing and format-mismatch note -/

/-- Every mime type the fallback codec selection can produce is WebM-typed. -/
lemma fallbackMime_webm (vp9 vp8 h264 : Bool) :
    (fallbackMimeSelect vp9 vp8 h264).take 10 = "video/webm" := by
  cases vp9 <;> cases vp8 <;> cases h264 <;> decide

/-- No fallback mime type contains the substring `mp4`. -/
lemma fallbackMime_not_mp4 (vp9 vp8 h264 : Bool) :
    strIncludes (fallbackMimeSelect vp9 vp8 h264) "mp4" = false := by
  cases vp9 <;> cases vp8 <;> cases h264 <;> decide

/-- Claim C5.  Whenever the external encoder is unavailable (`useFFmpeg`
false, or the adapter not ready) or both of its transcode attempts throw,
`VideoProcessor.processVideo` still resolves — with the blob produced by the
MediaRecorder fallback; for an `mp4` request that blob is WebM-typed and the
informational format-mismatch note is issued instead of an error. -/
theorem C5_fallback_webm_note (useFFmpeg ffmpegReady vp9 vp8 h264 : Bool)
    (run1 run2 : Except String Blob) (e1 e2 : String)
    (hno : (useFFmpeg = false ∨ ffmpegReady = false) ∨
           (run1 = Except.error e1 ∧ run2 = Except.error e2)) :
    vpProcessVideo useFFmpeg ffmpegReady run1 run2
        (Except.ok { type := fallbackMimeSelect vp9 vp8 h264 }) "mp4" =
      Except.ok ({ type := fallbackMimeSelect vp9 vp8 h264 }, true) ∧
    (fallbackMimeSelect vp9 vp8 h264).take 10 = "video/webm" := by
  have hmp4 : strIncludes (fallbackMimeSelect vp9 vp8 h264) "mp4" = false :=
    fallbackMime_not_mp4 vp9 vp8 h264
  refine ⟨?_, fallbackMime_webm vp9 vp8 h264⟩
  rcases hno with hunavail | ⟨hr1, hr2⟩
  · rcases hunavail with hu | hr
    · subst hu; simp [vpProcessVideo, hmp4]
    · subst hr; simp [vpProcessVideo, hmp4]
  · subst hr1; subst hr2
    cases useFFmpeg <;> cases ffmpegReady <;> simp [vpProcessVideo, hmp4]

/-- Witness for C5: encoder module failed to load (`useFFmpeg = false`),
VP9 supported. -/
theorem C5_fallback_webm_note_witness :
    vpProcessVideo false true
        (Except.error "load failed") (Except.error "load failed")
        (Except.ok { type := fallbackMimeSelect true false false }) "mp4" =
      Except.ok ({ type := fallbackMimeSelect true false false }, true) ∧
    (fallbackMimeSelect true false false).take 10 = "video/webm" :=
  C5_fallback_webm_note false true true false false
    (Except.error "load failed") (Except.error "load failed")
    "load failed" "load failed" (Or.inl (Or.inl rfl))

/-! ## 12. Claims C4, C8, C10: busy flag, memoized initialisation, cleanup -/

/-- Claim C4.  A `processVideo` call on an already-busy processor (a state an
in-flight job reaches only after a successful initialisation, hence
`isLoaded = true`) is rejected immediately with the busy error: no queueing,
the processor state — including the in-flight job's progress callback — is
returned untouched, and the rejected call emits no progress values.  The
fallback processor's entry check rejects identically. -/
theorem C4_busy_reject (s : FfmpegState) (cb : Option ℕ) (body : Except String Unit)
    (hload : s.isLoaded = true) (hbusy : s.isProcessing = true) :
    ffmpegProcessVideo s cb body =
      (s, Except.error "Another video is currently being processed", []) ∧
    fallbackBusyEntry true = Except.error "Another video is being processed" := by
  constructor
  · simp [ffmpegProcessVideo, hload, hbusy]
  · rfl

/-- Witness for C4: a loaded, busy processor with an active callback. -/
theorem C4_busy_reject_witness :
    ffmpegProcessVideo
        { isLoaded := true, isProcessing := true, currentProgressCallback := some 7 }
        (some 8) (Except.ok ()) =
      ({ isLoaded := true, isProcessing := true, currentProgressCallback := some 7 },
       Except.error "Another video is currently being processed", []) ∧
    fallbackBusyEntry true = Except.error "Another video is being processed" :=
  C4_busy_reject
    { isLoaded := true, isProcessing := true, currentProgressCallback := some 7 }
    (some 8) (Except.ok ()) rfl rfl

/-- Claim C8.  Once a load is in flight (`loadingPromise` set), every further
`initialize` call leaves the loader state unchanged — so `_loadFFmpeg` is
never invoked a second time — and either returns the memoized success
(`isLoaded` already true) or awaits exactly the same in-flight promise. -/
theorem C8_init_memoized (s : LoaderState) (p fresh : ℕ)
    (hin : s.loadingPromise = some p) :
    (loaderInit s fresh).1 = s ∧
    (loaderInit s fresh).2 =
      (if s.isLoaded = true then InitAction.returnTrue else InitAction.awaitPromise p) := by
  unfold loaderInit
  by_cases hl : s.isLoaded = true
  · rw [if_pos hl, if_pos hl]
    exact ⟨rfl, rfl⟩
  · rw [if_neg hl, if_neg hl, hin]
    exact ⟨rfl, rfl⟩

/-- Witness for C8: a not-yet-resolved in-flight load (promise 3); a caller
arriving with a would-be-new promise 4 awaits promise 3 and changes nothing. -/
theorem C8_init_memoized_witness :
    (loaderInit { isLoaded := false, loadingPromise := some 3 } 4).1 =
      { isLoaded := false, loadingPromise := some 3 } ∧
    (loaderInit { isLoaded := false, loadingPromise := some 3 } 4).2 =
      (if ({ isLoaded := false, loadingPromise := some 3 } : LoaderState).isLoaded = true
       then InitAction.returnTrue else InitAction.awaitPromise 3) :=
  C8_init_memoized { isLoaded := false, loadingPromise := some 3 } 3 4 rfl

/-- Claim C10.  When the try-block of `FFmpegVideoProcessor.processVideo`
throws after the busy check passed, the `finally` block resets `isProcessing`
and clears `currentProgressCallback` before the error propagates, and a
subsequent call on the same processor is admitted: its outcome is its own
body's outcome, never the busy rejection. -/
theorem C10_finally_reset (s : FfmpegState) (cb cb2 : Option ℕ) (e : String)
    (body2 : Except String Unit)
    (hload : s.isLoaded = true) (hfree : s.isProcessing = false) :
    (ffmpegProcessVideo s cb (Except.error e)).1.isProcessing = false ∧
    (ffmpegProcessVideo s cb (Except.error e)).1.currentProgressCallback = none ∧
    (ffmpegProcessVideo s cb (Except.error e)).2.1 = Except.error e ∧
    (ffmpegProcessVideo (ffmpegProcessVideo s cb (Except.error e)).1 cb2 body2).2.1 =
      body2 := by
  simp [ffmpegProcessVideo, hload, hfree]

/-- Witness for C10: a failed job on a fresh loaded processor, followed by a
successful second job. -/
theorem C10_finally_reset_witness :
    (ffmpegProcessVideo
        { isLoaded := true, isProcessing := false, currentProgressCallback := none }
        (some 1) (Except.error "exec failed")).1.isProcessing = false ∧
    (ffmpegProcessVideo
        { isLoaded := true, isProcessing := false, currentProgressCallback := none }
        (some 1) (Except.error "exec failed")).1.currentProgressCallback = none ∧
    (ffmpegProcessVideo
        { isLoaded := true, isProcessing := false, currentProgressCallback := none }
        (some 1) (Except.error "exec failed")).2.1 = Except.error "exec failed" ∧
    (ffmpegProcessVideo
        (ffmpegProcessVideo
          { isLoaded := true, isProcessing := false, currentProgressCallback := none }
          (some 1) (Except.error "exec failed")).1
        (some 2) (Except.ok ())).2.1 = Except.ok () :=
  C10_finally_reset
    { isLoaded := true, isProcessing := false, currentProgressCallback := none }
    (some 1) (some 2) "exec failed" (Except.ok ()) rfl rfl

/-! ## 13. Claim C3: progress traces of the fallback job -/

/-- Once the `processFrames` loop has stopped re-scheduling itself, the only
remaining progress reports are the `'ended'` handler's `1.0`. -/
lemma fbExec_inactive (d : ℚ) :
    ∀ (es : List FbEvent) (s : FbState), s.loopActive = false →
      ∀ x ∈ (fbExec d s es).2, x = 1 := by
  intro es
  induction es with
  | nil => intro s hs x hx; simp [fbExec] at hx
  | cons e es ih =>
    intro s hs x hx
    cases e with
    | endedEv =>
      simp only [fbExec, fbStep] at hx
      rcases List.mem_append.mp hx with h1 | h2
      · simpa using h1
      · exact ih s hs x h2
    | tick t ended =>
      have hstep : fbStep d s (FbEvent.tick t ended) = (s, []) := by
        simp only [fbStep]
        rw [if_pos hs]
      rw [show (fbExec d s (FbEvent.tick t ended :: es)).2 =
          (fbStep d s (FbEvent.tick t ended)).2 ++
            (fbExec d (fbStep d s (FbEvent.tick t ended)).1 es).2 from rfl, hstep] at hx
      exact ih s hs x (by simpa using hx)

/-- After the `'ended'` event every tick sees `ended = true`, so every later
report is `1.0`. -/
lemma fbExec_allEnded (d : ℚ) :
    ∀ (es : List FbEvent) (s : FbState), allTicksEnded es = true →
      ∀ x ∈ (fbExec d s es).2, x = 1 := by
  intro es
  induction es with
  | nil => intro s _ x hx; simp [fbExec] at hx
  | cons e es ih =>
    intro s hall x hx
    cases e with
    | endedEv =>
      have hall' : allTicksEnded es = true := by simpa [allTicksEnded] using hall
      simp only [fbExec, fbStep] at hx
      rcases List.mem_append.mp hx with h1 | h2
      · simpa using h1
      · exact ih s hall' x h2
    | tick t ended =>
      have hparts : ended = true ∧ allTicksEnded es = true := by
        simpa [allTicksEnded] using hall
      by_cases hla : s.loopActive = false
      · have hstep : fbStep d s (FbEvent.tick t ended) = (s, []) := by
          simp only [fbStep]; rw [if_pos hla]
        rw [show (fbExec d s (FbEvent.tick t ended :: es)).2 =
            (fbStep d s (FbEvent.tick t ended)).2 ++
              (fbExec d (fbStep d s (FbEvent.tick t ended)).1 es).2 from rfl, hstep] at hx
        exact ih s hparts.2 x (by simpa using hx)
      · have hstep : fbStep d s (FbEvent.tick t ended) =
            ({ s with loopActive := false }, [1]) := by
          simp only [fbStep]
          rw [if_neg hla, if_pos (Or.inl hparts.1)]
        rw [show (fbExec d s (FbEvent.tick t ended :: es)).2 =
            (fbStep d s (FbEvent.tick t ended)).2 ++
              (fbExec d (fbStep d s (FbEvent.tick t ended)).1 es).2 from rfl, hstep] at hx
        rcases List.mem_append.mp hx with h1 | h2
        · simpa using h1
        · exact ih _ hparts.2 x h2

/-- A constant list extends a chain of `≤` below its constant head. -/
lemma chain_le_of_all_eq (c : ℚ) :
    ∀ (l : List ℚ), (∀ x ∈ l, x = c) → List.Chain' (· ≤ ·) (c :: l) := by
  intro l
  induction l with
  | nil => intro _; exact List.chain'_singleton c
  | cons x xs ih =>
    intro h
    have hx : x = c := h x (List.mem_cons_self x xs)
    subst hx
    exact List.chain'_cons.mpr
      ⟨le_refl x, ih (fun y hy => h y (List.mem_cons_of_mem _ hy))⟩

/-- The last element of a nonempty constant-tailed list is the constant. -/
lemma getLast?_cons_all_eq (c : ℚ) :
    ∀ (l : List ℚ), (∀ x ∈ l, x = c) → (c :: l).getLast? = some c := by
  intro l
  induction l with
  | nil => intro _; rfl
  | cons x xs ih =>
    intro h
    have hx : x = c := h x (List.mem_cons_self x xs)
    subst hx
    rw [List.getLast?_cons_cons]
    exact ih (fun y hy => h y (List.mem_cons_of_mem _ hy))

/-- Main invariant of the fallback progress loop: over any valid schedule the
reports extend a non-decreasing chain below the running bound `L`, stay at
most `1`, and once `1.0` has been reported the trace ends on `1.0`. -/
lemma fbExec_invariant (d : ℚ) (hd : 0 < d) :
    ∀ (es : List FbEvent) (s : FbState) (L : ℚ),
      s.loopActive = true →
      endedConsistent es = true →
      List.Pairwise (· ≤ ·) (tickTimes es) →
      L ≤ 1 →
      (∀ t ∈ tickTimes es, L ≤ min (t / d) (99 / 100)) →
      List.Chain' (· ≤ ·) (L :: (fbExec d s es).2) ∧
      (∀ x ∈ (fbExec d s es).2, x ≤ 1) ∧
      ((1 : ℚ) ∈ (fbExec d s es).2 → ((fbExec d s es).2).getLast? = some 1) := by
  intro es
  induction es with
  | nil =>
    intro s L _ _ _ _ _
    refine ⟨List.chain'_singleton L, ?_, ?_⟩
    · intro x hx; simp [fbExec] at hx
    · intro h1; simp [fbExec] at h1
  | cons e es ih =>
    intro s L hact hcons hsort hL1 hLt
    cases e with
    | endedEv =>
      have hAll : allTicksEnded es = true := by simpa [endedConsistent] using hcons
      have hones : ∀ x ∈ (fbExec d s es).2, x = 1 := fbExec_allEnded d es s hAll
      have hshape : (fbExec d s (FbEvent.endedEv :: es)).2 =
          1 :: (fbExec d s es).2 := by
        simp [fbExec, fbStep]
      rw [hshape]
      refine ⟨List.chain'_cons.mpr ⟨hL1, chain_le_of_all_eq 1 _ hones⟩, ?_, ?_⟩
      · intro x hx
        rcases List.mem_cons.mp hx with h1 | h2
        · rw [h1]
        · rw [hones x h2]
      · intro _
        exact getLast?_cons_all_eq 1 _ hones
    | tick t ended =>
      have htick : tickTimes (FbEvent.tick t ended :: es) = t :: tickTimes es := rfl
      have hLt_head : L ≤ min (t / d) (99 / 100) :=
        hLt t (by rw [htick]; exact List.mem_cons_self _ _)
      have hLt_tail : ∀ u ∈ tickTimes es, L ≤ min (u / d) (99 / 100) :=
        fun u hu => hLt u (by rw [htick]; exact List.mem_cons_of_mem _ hu)
      have hsort_head : ∀ u ∈ tickTimes es, t ≤ u := by
        rw [htick] at hsort; exact (List.pairwise_cons.mp hsort).1
      have hsort_tail : List.Pairwise (· ≤ ·) (tickTimes es) := by
        rw [htick] at hsort; exact (List.pairwise_cons.mp hsort).2
      have hcons_tail : endedConsistent es = true := by
        simpa [endedConsistent] using hcons
      have hnla : ¬ s.loopActive = false := by rw [hact]; simp
      by_cases hendbr : ended = true ∨ d ≤ t
      · have hstep : fbStep d s (FbEvent.tick t ended) =
            ({ s with loopActive := false }, [1]) := by
          simp only [fbStep]
          rw [if_neg hnla, if_pos hendbr]
        have hshape : (fbExec d s (FbEvent.tick t ended :: es)).2 =
            1 :: (fbExec d { s with loopActive := false } es).2 := by
          rw [show (fbExec d s (FbEvent.tick t ended :: es)).2 =
              (fbStep d s (FbEvent.tick t ended)).2 ++
                (fbExec d (fbStep d s (FbEvent.tick t ended)).1 es).2 from rfl, hstep]
          rfl
        have hones : ∀ x ∈ (fbExec d { s with loopActive := false } es).2, x = 1 :=
          fbExec_inactive d es _ rfl
        rw [hshape]
        refine ⟨List.chain'_cons.mpr ⟨hL1, chain_le_of_all_eq 1 _ hones⟩, ?_, ?_⟩
        · intro x hx
          rcases List.mem_cons.mp hx with h1 | h2
          · rw [h1]
          · rw [hones x h2]
        · intro _
          exact getLast?_cons_all_eq 1 _ hones
      · have hlt : t < d := by
          rcases not_or.mp hendbr with ⟨_, hnd⟩
          exact lt_of_not_le hnd
        by_cases hfc : s.frameCount % 10 = 0
        · have hstep : fbStep d s (FbEvent.tick t ended) =
              ({ s with frameCount := s.frameCount + 1 }, [min (t / d) (99 / 100)]) := by
            simp only [fbStep]
            rw [if_neg hnla, if_neg hendbr, if_pos hfc]
          have hshape : (fbExec d s (FbEvent.tick t ended :: es)).2 =
              min (t / d) (99 / 100) ::
                (fbExec d { s with frameCount := s.frameCount + 1 } es).2 := by
            rw [show (fbExec d s (FbEvent.tick t ended :: es)).2 =
                (fbStep d s (FbEvent.tick t ended)).2 ++
                  (fbExec d (fbStep d s (FbEvent.tick t ended)).1 es).2 from rfl, hstep]
            rfl
          have hm1 : min (t / d) (99 / 100) ≤ (1 : ℚ) :=
            le_trans (min_le_right _ _) (by norm_num)
          have hmtail : ∀ u ∈ tickTimes es,
              min (t / d) (99 / 100) ≤ min (u / d) (99 / 100) := by
            intro u hu
            have hdiv : t / d ≤ u / d := by
              rw [div_eq_mul_inv, div_eq_mul_inv]
              exact mul_le_mul_of_nonneg_right (hsort_head u hu) (inv_nonneg.mpr hd.le)
            exact min_le_min hdiv (le_refl _)
          have hIH := ih { s with frameCount := s.frameCount + 1 }
            (min (t / d) (99 / 100)) hact hcons_tail hsort_tail hm1 hmtail
          rw [hshape]
          refine ⟨List.chain'_cons.mpr ⟨hLt_head, hIH.1⟩, ?_, ?_⟩
          · intro x hx
            rcases List.mem_cons.mp hx with h1 | h2
            · rw [h1]; exact hm1
            · exact hIH.2.1 x h2
          · intro h1mem
            have hmlt : min (t / d) (99 / 100) < 1 :=
              lt_of_le_of_lt (min_le_right _ _) (by norm_num)
            rcases List.mem_cons.mp h1mem with h1 | h2
            · rw [← h1] at hmlt
              exact absurd hmlt (lt_irrefl 1)
            · have hlast := hIH.2.2 h2
              have hne := List.ne_nil_of_mem h2
              cases hrest : (fbExec d { s with frameCount := s.frameCount + 1 } es).2 with
              | nil => rw [hrest] at hne; exact absurd rfl hne
              | cons r rs =>
                rw [List.getLast?_cons_cons]
                rw [hrest] at hlast
                exact hlast
        · have hstep : fbStep d s (FbEvent.tick t ended) =
              ({ s with frameCount := s.frameCount + 1 }, []) := by
            simp only [fbStep]
            rw [if_neg hnla, if_neg hendbr, if_neg hfc]
          have hshape : (fbExec d s (FbEvent.tick t ended :: es)).2 =
              (fbExec d { s with frameCount := s.frameCount + 1 } es).2 := by
            rw [show (fbExec d s (FbEvent.tick t ended :: es)).2 =
                (fbStep d s (FbEvent.tick t ended)).2 ++
                  (fbExec d (fbStep d s (FbEvent.tick t ended)).1 es).2 from rfl, hstep]
            rfl
          rw [hshape]
          exact ih { s with frameCount := s.frameCount + 1 } L hact
            hcons_tail hsort_tail hL1 hLt_tail


/-- Claim C3, counterexample.  On a natural end of playback both the
`processFrames` end branch (line 558) and the `'ended'` listener (line 640)
run, each reporting `1.0`: over the valid schedule `fbNaturalEndSchedule`
(a tick sees `currentTime = duration`, then the `'ended'` event fires) the
trace is `[0, 1, 1]` — the value `1.0` is reported twice, refuting
"exactly once". -/
theorem C3_double_one_counterexample :
    endedConsistent fbNaturalEndSchedule = true ∧
    List.Pairwise (· ≤ ·) (tickTimes fbNaturalEndSchedule) ∧
    (∀ t ∈ tickTimes fbNaturalEndSchedule, 0 ≤ t) ∧
    fbTrace 1 fbNaturalEndSchedule = [0, 1, 1] ∧
    (fbTrace 1 fbNaturalEndSchedule).count 1 = 2 := by
  refine ⟨rfl, ?_, ?_, ?_, ?_⟩
  · simp [fbNaturalEndSchedule, tickTimes]
  · simp [fbNaturalEndSchedule, tickTimes]
  · norm_num [fbTrace, fbExec, fbStep, fbNaturalEndSchedule]
  · norm_num [fbTrace, fbExec, fbStep, fbNaturalEndSchedule, List.count_cons]

/-- Claim C3 (amended).  Over every valid schedule (times non-negative and
non-decreasing, ticks after the `'ended'` event seeing `ended = true`) the
fallback job's progress trace is monotonically non-decreasing, never exceeds
`1.0`, and once `1.0` has been reported the trace ends on `1.0` — but `1.0`
can be reported twice (see the counterexample), not exactly once. -/
theorem C3_progress_monotone (d : ℚ) (es : List FbEvent) (hd : 0 < d)
    (hcons : endedConsistent es = true)
    (hsort : List.Pairwise (· ≤ ·) (tickTimes es))
    (hnn : ∀ t ∈ tickTimes es, 0 ≤ t) :
    List.Chain' (· ≤ ·) (fbTrace d es) ∧
    (∀ x ∈ fbTrace d es, x ≤ 1) ∧
    ((1 : ℚ) ∈ fbTrace d es → (fbTrace d es).getLast? = some 1) := by
  have hLt : ∀ t ∈ tickTimes es, (0 : ℚ) ≤ min (t / d) (99 / 100) :=
    fun t ht => le_min (div_nonneg (hnn t ht) hd.le) (by norm_num)
  have hmain := fbExec_invariant d hd es { frameCount := 0, loopActive := true } 0
    rfl hcons hsort (by norm_num) hLt
  unfold fbTrace
  refine ⟨hmain.1, ?_, ?_⟩
  · intro x hx
    rcases List.mem_cons.mp hx with h0 | h2
    · rw [h0]; norm_num
    · exact hmain.2.1 x h2
  · intro h1mem
    rcases List.mem_cons.mp h1mem with h0 | h2
    · norm_num at h0
    · have hlast := hmain.2.2 h2
      have hne := List.ne_nil_of_mem h2
      cases hrest : (fbExec d { frameCount := 0, loopActive := true } es).2 with
      | nil =>
        rw [hrest] at hne
        exact absurd rfl hne
      | cons r rs =>
        rw [List.getLast?_cons_cons]
        rw [hrest] at hlast
        exact hlast

/-- Witness for C3 on a 1-second job with one in-play tick and a natural end. -/
theorem C3_progress_monotone_witness :
    List.Chain' (· ≤ ·) (fbTrace 1 [FbEvent.tick 0 false, FbEvent.endedEv]) ∧
    (∀ x ∈ fbTrace 1 [FbEvent.tick 0 false, FbEvent.endedEv], x ≤ 1) ∧
    ((1 : ℚ) ∈ fbTrace 1 [FbEvent.tick 0 false, FbEvent.endedEv] →
      (fbTrace 1 [FbEvent.tick 0 false, FbEvent.endedEv]).getLast? = some 1) :=
  C3_progress_monotone 1 [FbEvent.tick 0 false, FbEvent.endedEv]
    (by norm_num) rfl (by simp [tickTimes]) (by simp [tickTimes])

/-! ## 14. Claim C9: the timeout guard -/

/-- Over a schedule of in-play animation ticks (no end condition ever met),
the UMD fallback loop stays active and every report stays at or below `0.99`:
nothing in that processor ends the job, however much wall-clock time passes
between ticks. -/
lemma fbExec_stalled (d : ℚ) :
    ∀ (es : List FbEvent),
      (∀ e ∈ es, ∃ t ended, e = FbEvent.tick t ended ∧ ¬(ended = true ∨ d ≤ t)) →
      ∀ s : FbState, s.loopActive = true →
        (fbExec d s es).1.loopActive = true ∧
        ∀ x ∈ (fbExec d s es).2, x ≤ 99 / 100 := by
  intro es
  induction es with
  | nil =>
    intro _ s hact
    exact ⟨hact, fun x hx => by simp [fbExec] at hx⟩
  | cons e es ih =>
    intro hall s hact
    obtain ⟨t, ended, rfl, hno⟩ := hall e (List.mem_cons_self e es)
    have hall' : ∀ e ∈ es, ∃ t ended, e = FbEvent.tick t ended ∧ ¬(ended = true ∨ d ≤ t) :=
      fun e he => hall e (List.mem_cons_of_mem _ he)
    have hnla : ¬ s.loopActive = false := by rw [hact]; simp
    by_cases hfc : s.frameCount % 10 = 0
    · have hstep : fbStep d s (FbEvent.tick t ended) =
          ({ s with frameCount := s.frameCount + 1 }, [min (t / d) (99 / 100)]) := by
        simp only [fbStep]
        rw [if_neg hnla, if_neg hno, if_pos hfc]
      have hIH := ih hall' { s with frameCount := s.frameCount + 1 } hact
      constructor
      · rw [show (fbExec d s (FbEvent.tick t ended :: es)).1 =
            (fbExec d (fbStep d s (FbEvent.tick t ended)).1 es).1 from rfl, hstep]
        exact hIH.1
      · intro x hx
        rw [show (fbExec d s (FbEvent.tick t ended :: es)).2 =
            (fbStep d s (FbEvent.tick t ended)).2 ++
              (fbExec d (fbStep d s (FbEvent.tick t ended)).1 es).2 from rfl, hstep] at hx
        rcases List.mem_append.mp hx with h1 | h2
        · rw [show x = min (t / d) (99 / 100) by simpa using h1]
          exact min_le_right _ _
        · exact hIH.2 x h2
    · have hstep : fbStep d s (FbEvent.tick t ended) =
          ({ s with frameCount := s.frameCount + 1 }, []) := by
        simp only [fbStep]
        rw [if_neg hnla, if_neg hno, if_neg hfc]
      have hIH := ih hall' { s with frameCount := s.frameCount + 1 } hact
      constructor
      · rw [show (fbExec d s (FbEvent.tick t ended :: es)).1 =
            (fbExec d (fbStep d s (FbEvent.tick t ended)).1 es).1 from rfl, hstep]
        exact hIH.1
      · intro x hx
        rw [show (fbExec d s (FbEvent.tick t ended :: es)).2 =
            (fbStep d s (FbEvent.tick t ended)).2 ++
              (fbExec d (fbStep d s (FbEvent.tick t ended)).1 es).2 from rfl, hstep] at hx
        exact hIH.2 x (by simpa using hx)

/-- Claim C9, counterexample.  The claim covers every real-time capture job,
but `FallbackVideoProcessor.processVideo` has no timeout guard at all: with
playback stalled at 0.5 s of a 1-second video, fifty animation ticks — behind
which arbitrarily much wall-clock time may pass, far beyond duration plus any
fixed buffer — leave the loop still active, with no stop and no `1.0`
completion report; nothing in that processor ever ends the job early. -/
theorem C9_no_guard_counterexample :
    (fbExec 1 { frameCount := 0, loopActive := true } fbStalledSchedule).1.loopActive
      = true ∧
    (1 : ℚ) ∉ (fbExec 1 { frameCount := 0, loopActive := true } fbStalledSchedule).2 := by
  have hall : ∀ e ∈ fbStalledSchedule,
      ∃ t ended, e = FbEvent.tick t ended ∧ ¬(ended = true ∨ (1 : ℚ) ≤ t) := by
    intro e he
    simp only [fbStalledSchedule] at he
    rw [List.eq_of_mem_replicate he]
    exact ⟨1 / 2, false, rfl, by norm_num⟩
  have hmain := fbExec_stalled 1 fbStalledSchedule hall
    { frameCount := 0, loopActive := true } rfl
  refine ⟨hmain.1, ?_⟩
  intro hmem
  have := hmain.2 1 hmem
  norm_num at this

/-- Claim C9 (amended).  `VideoFrameProcessor.processVideo` alone has the
guard: its timeout constant is `(duration + 10) * 1000` ms — duration plus a
fixed 10-second buffer — and when it fires it clears `isProcessing` and stops
the recorder, whose `onstop` then resolves the job with the partially
captured blob rather than rejecting.  The UMD `FallbackVideoProcessor` has no
such guard (see the counterexample). -/
theorem C9_timeout_guard (d : ℚ) (s : VfpState)
    (hpend : s.outcome = VfpOutcome.pending) :
    maxProcessingTime d = d * 1000 + 10000 ∧
    (vfpStep s VfpEvent.timeoutFire).isProcessing = false ∧
    (vfpStep s VfpEvent.timeoutFire).recorderActive = false ∧
    (vfpStep (vfpStep s VfpEvent.timeoutFire) VfpEvent.recorderOnStop).outcome =
      VfpOutcome.resolvedBlob := by
  refine ⟨by unfold maxProcessingTime; ring, rfl, rfl, ?_⟩
  simp [vfpStep, hpend]

/-- Witness for C9: a 5-second job, recorder running, promise pending. -/
theorem C9_timeout_guard_witness :
    maxProcessingTime 5 = 5 * 1000 + 10000 ∧
    (vfpStep ⟨true, true, VfpOutcome.pending⟩ VfpEvent.timeoutFire).isProcessing
      = false ∧
    (vfpStep ⟨true, true, VfpOutcome.pending⟩ VfpEvent.timeoutFire).recorderActive
      = false ∧
    (vfpStep (vfpStep ⟨true, true, VfpOutcome.pending⟩ VfpEvent.timeoutFire)
        VfpEvent.recorderOnStop).outcome = VfpOutcome.resolvedBlob :=
  C9_timeout_guard 5 ⟨true, true, VfpOutcome.pending⟩ rfl
